import Mathlib

/-!
Verification of the MNIST MLX benchmark harness
(`mnist/benchmark_mlx.py` plus the `benchmark` module it imports).

The repository ships only the driver `benchmark_mlx.py`; the `benchmark`
module defining `TrainBenchmark` and `TestBenchmark` is imported but its
source is not part of the repository snapshot.  Those two classes are
therefore modelled from the specification (its §3 data model, §4
contracts and §9 state-machine design note); everything about `main`,
`batch_iterate` and the CSV file names is embedded directly from
`benchmark_mlx.py`.

Conventions of the embedding:
* epoch durations (Python floats, only ever stored and written out,
  never computed with) are represented by `Rat`;
* the NumPy global random generator is represented by an abstract state
  type threaded explicitly through the code that uses it (`np.random.seed`
  becomes building an initial state, `np.random.permutation` becomes a
  state-passing draw);
* the external numerical collaborators (model construction, gradient
  steps, evaluation) are abstract functions quantified over in the
  theorems;
* the file system is a map from paths to file contents, so that writing
  a CSV is a function update.
-/

namespace MnistBench

/-- State of the benchmark iteration, following the spec's §9 design
note: `NOT_STARTED → RUN_i (i = 0 .. num_runs-1) → DONE`. -/
inductive TBState where
  | notStarted : TBState
  | inRun : Nat → TBState
  | done : TBState
deriving DecidableEq, Repr

/-- Modelled from the spec: a `Run` record (§3): 0-based `run_index`,
`batch_size`, and the per-epoch durations appended in epoch order by
`add_epoch`. -/
structure Run where
  run_index : Nat
  batch_size : Nat
  epoch_durations : List Rat
deriving DecidableEq, Repr

/-- Modelled from the spec: the `TrainBenchmark` harness (§3, §4.1):
configuration (`initial_batch_size`, `vary_batch_size`, `num_runs`),
the ordered sequence of `Run` records produced so far, and the
iteration state. -/
structure TrainBenchmark where
  initial_batch_size : Nat
  vary_batch_size : Bool
  num_runs : Nat
  runs : List Run
  state : TBState
deriving DecidableEq, Repr

/-- Modelled from the spec: `TrainBenchmark(initial_batch_size,
vary_batch_size, num_runs)` construction (§4.1): stores the
configuration, no runs yet, iteration not started. -/
def TrainBenchmark.init (b : Nat) (v : Bool) (n : Nat) : TrainBenchmark :=
  { initial_batch_size := b
    vary_batch_size := v
    num_runs := n
    runs := []
    state := TBState.notStarted }

/-- Modelled from the spec: the batch size for run `i` (§4.1):
`initial_batch_size * 2^i` when `vary_batch_size`, else
`initial_batch_size`. -/
def TrainBenchmark.batchSizeFor (tb : TrainBenchmark) (i : Nat) : Nat :=
  if tb.vary_batch_size then tb.initial_batch_size * 2 ^ i else tb.initial_batch_size

/-- Modelled from the spec: one step of the single-pass iteration
(§4.1, §9).  Yields the next `(run_index, batch_size)` pair and starts
the corresponding `Run` record, or yields `none` and moves to `DONE`
when the `num_runs` runs are exhausted.  `DONE` is absorbing: the
sequence is non-restartable. -/
def TrainBenchmark.next (tb : TrainBenchmark) : Option (Nat × Nat) × TrainBenchmark :=
  match tb.state with
  | TBState.done => (none, tb)
  | TBState.notStarted =>
      if 0 < tb.num_runs then
        (some (0, tb.batchSizeFor 0),
          { tb with runs := tb.runs ++ [⟨0, tb.batchSizeFor 0, []⟩],
                    state := TBState.inRun 0 })
      else (none, { tb with state := TBState.done })
  | TBState.inRun i =>
      if i + 1 < tb.num_runs then
        (some (i + 1, tb.batchSizeFor (i + 1)),
          { tb with runs := tb.runs ++ [⟨i + 1, tb.batchSizeFor (i + 1), []⟩],
                    state := TBState.inRun (i + 1) })
      else (none, { tb with state := TBState.done })

/-- Number of iteration steps the harness can still take; decreases at
every step that yields a pair. -/
def TrainBenchmark.remaining (tb : TrainBenchmark) : Nat :=
  match tb.state with
  | TBState.notStarted => tb.num_runs + 1
  | TBState.inRun i => tb.num_runs - i
  | TBState.done => 0

/-- Modelled from the spec: consuming the whole iteration sequence
(§4.1): the list of `(run_index, batch_size)` pairs yielded, together
with the harness state left behind. -/
def TrainBenchmark.iterate (tb : TrainBenchmark) : List (Nat × Nat) × TrainBenchmark :=
  match h : tb.next with
  | (none, tb') => ([], tb')
  | (some p, tb') =>
      let rest := tb'.iterate
      (p :: rest.1, rest.2)
termination_by tb.remaining
decreasing_by
  unfold TrainBenchmark.next at h
  cases hst : tb.state with
  | done => simp [hst] at h
  | notStarted =>
      rw [hst] at h
      by_cases hn : 0 < tb.num_runs
      · simp only [if_pos hn] at h
        cases h
        simp [TrainBenchmark.remaining, hst]
      · simp [if_neg hn] at h
  | inRun i =>
      rw [hst] at h
      by_cases hn : i + 1 < tb.num_runs
      · simp only [if_pos hn] at h
        cases h
        simp only [TrainBenchmark.remaining, hst]
        omega
      · simp [if_neg hn] at h

/-- The run indices the iteration still has to yield from a given
state. -/
def TrainBenchmark.pendingIdx (tb : TrainBenchmark) : List Nat :=
  match tb.state with
  | TBState.notStarted => List.range tb.num_runs
  | TBState.inRun i => List.range' (i + 1) (tb.num_runs - (i + 1))
  | TBState.done => []

/-- Modelled from the spec: the harness's API-misuse failure (§7):
recording an epoch with no active run. -/
inductive InvalidStateError where
  | noActiveRun : InvalidStateError
deriving DecidableEq, Repr

/-- Replaces the last element of a list (used to mutate the currently
active, i.e. most recently created, run record in place). -/
def modifyLast (f : α → α) : List α → List α
  | [] => []
  | [a] => [f a]
  | a :: b :: rest => a :: modifyLast f (b :: rest)

/-- Modelled from the spec: `add_epoch(duration_seconds)` (§4.1):
appends the duration to the currently active run (the run most recently
yielded, i.e. the last `Run` record); fails with `InvalidStateError`
when no run is active (iteration not started, or exhausted). -/
def TrainBenchmark.add_epoch (tb : TrainBenchmark) (d : Rat) :
    Except InvalidStateError TrainBenchmark :=
  match tb.state with
  | TBState.inRun _ =>
      Except.ok
        { tb with
            runs := modifyLast
              (fun r => { r with epoch_durations := r.epoch_durations ++ [d] }) tb.runs }
  | _ => Except.error InvalidStateError.noActiveRun

/-- A sequence of `add_epoch` calls, propagating the first failure. -/
def TrainBenchmark.addEpochs (tb : TrainBenchmark) :
    List Rat → Except InvalidStateError TrainBenchmark
  | [] => Except.ok tb
  | d :: ds =>
      match tb.add_epoch d with
      | Except.ok tb' => tb'.addEpochs ds
      | Except.error e => Except.error e

/-- Modelled from the spec: the export rows of one run (§3): one row
per recorded epoch, columns run index, batch size, epoch index,
duration. -/
def Run.csvRows (r : Run) : List (List String) :=
  r.epoch_durations.enum.map fun p =>
    [toString r.run_index, toString r.batch_size, toString p.1, toString p.2]

/-- Modelled from the spec: the header row required by §4.1. -/
def trainCsvHeader : List String :=
  ["run_index", "batch_size", "epoch_index", "duration"]

/-- Modelled from the spec: the full tabular export of a
`TrainBenchmark` (§3): a header row followed by one row per run×epoch
pair. -/
def TrainBenchmark.csvRows (tb : TrainBenchmark) : List (List String) :=
  trainCsvHeader :: (tb.runs.map Run.csvRows).flatten

/-- Renders rows as comma/newline delimited text. -/
def renderCsv (rows : List (List String)) : String :=
  String.intercalate "\n" (rows.map (String.intercalate ","))

/-- Modelled from the spec: `write_to_csv(path)` (§4.1) over a file
system modelled as a map from paths to contents: the export replaces
whatever was stored at `path` before. -/
def TrainBenchmark.write_to_csv (tb : TrainBenchmark) (fs : String → Option String)
    (path : String) : String → Option String :=
  fun p => if p = path then some (renderCsv tb.csvRows) else fs p

/-- Modelled from the spec: the `TestBenchmark` harness (§3, §4.2):
only the `num_iterations` configuration; it holds no result data. -/
structure TestBenchmark where
  num_iterations : Nat
deriving DecidableEq, Repr

/-- Modelled from the spec: `TestBenchmark(num_iterations)`
construction (§4.2). -/
def TestBenchmark.init (n : Nat) : TestBenchmark := ⟨n⟩

/-- Modelled from the spec: iterating a `TestBenchmark` yields the
iteration indices `0 .. num_iterations - 1` (§4.2). -/
def TestBenchmark.iterate (t : TestBenchmark) : List Nat :=
  List.range t.num_iterations

/-- Modelled from the spec: the export of a `TestBenchmark` (§4.2): a
header row and one minimal row per iteration index. -/
def TestBenchmark.csvRows (t : TestBenchmark) : List (List String) :=
  ["iteration"] :: t.iterate.map fun i => [toString i]

/-- Modelled from the spec: `write_to_csv(path)` for `TestBenchmark`,
with the same overwrite semantics as for `TrainBenchmark`. -/
def TestBenchmark.write_to_csv (t : TestBenchmark) (fs : String → Option String)
    (path : String) : String → Option String :=
  fun p => if p = path then some (renderCsv t.csvRows) else fs p

/-- The training-results file name built by `main`
(`benchmark_mlx.py` line 96):
`results/mlx-train-{device}-n{num_iters}-e{num_epochs}{"-vbatch" if vary_batch_size else ""}.csv`. -/
def trainCsvPath (device : String) (num_iters num_epochs : Nat)
    (vary_batch_size : Bool) : String :=
  "results/mlx-train-" ++ device ++ "-n" ++ toString num_iters ++ "-e" ++
    toString num_epochs ++ (if vary_batch_size then "-vbatch" else "") ++ ".csv"

/-- The test-results file name built by `main`
(`benchmark_mlx.py` line 97): `results/mlx-test-{device}-n{num_iters}.csv`.
The parameters `num_epochs` and `vary_batch_size` are in scope at the
call site but do not occur in the format string. -/
def testCsvPath (device : String) (num_iters num_epochs : Nat)
    (vary_batch_size : Bool) : String :=
  "results/mlx-test-" ++ device ++ "-n" ++ toString num_iters ++ ".csv"

/-- `part` occurs contiguously inside `s` (the file name embeds
`part`). -/
def embeds (part s : String) : Prop :=
  ∃ t u : List Char, s.data = t ++ part.data ++ u

/-- Embeds Python's `range(0, stop, step)` starting from a running
value `s`, for a positive `step` (the only way `batch_iterate` uses
it). -/
def pyRangeAux (stop step : Nat) (s : Nat) : List Nat :=
  if h : s < stop ∧ 0 < step then s :: pyRangeAux stop step (s + step) else []
termination_by stop - s
decreasing_by omega

/-- Embeds Python's `range(0, stop, step)` for positive `step`. -/
def pyRange (stop step : Nat) : List Nat := pyRangeAux stop step 0

/-- Embeds the index slices taken by `batch_iterate`
(`benchmark_mlx.py` lines 44-48): for each slice start `s` in
`range(0, m, batch_size)`, the ids `perm[s : s + batch_size]`, where
`perm` is the drawn permutation and `m = y.size`. -/
def batchIds (batch_size : Nat) (perm : List Nat) (m : Nat) : List (List Nat) :=
  (pyRange m batch_size).map fun s => (perm.drop s).take batch_size

section MainEmbedding

variable {Model Acc RngState : Type}
variable (npSeed : Nat → RngState)
variable (npPermutation : RngState → Nat → List Nat × RngState)
variable (freshModel : Nat → Model)
variable (trainStep : Model → List Nat → Model)
variable (evalModel : Model → Acc)

/-- Embeds `batch_iterate(batch_size, X, y)`: draws
`np.random.permutation(y.size)` from the generator state and yields the
batch index lists; the `(X[ids], y[ids])` pairs fed to training are
determined by these lists and the fixed dataset arrays. -/
def batch_iterate (g : RngState) (batch_size m : Nat) : List (List Nat) × RngState :=
  let pg := npPermutation g m
  (batchIds batch_size pg.1 m, pg.2)

/-- Embeds the `for e in range(num_epochs)` body of `main`
(lines 75-87) over an explicit list of epoch indices: per epoch, one
pass of `batch_iterate` feeding gradient steps, then
`benchmark_train.add_epoch` with the measured duration (`durRun e`, an
external input standing for `toc - tic`).  Returns the trained model,
the generator state, the benchmark and the batch-id trace. -/
def epochsLoop (bs m : Nat) (durRun : Nat → Rat) (es : List Nat) (mod : Model)
    (g : RngState) (tb : TrainBenchmark) :
    Except InvalidStateError (Model × RngState × TrainBenchmark × List (List (List Nat))) :=
  match es with
  | [] => Except.ok (mod, g, tb, [])
  | e :: rest =>
      match tb.add_epoch (durRun e) with
      | Except.error err => Except.error err
      | Except.ok tb' =>
          match epochsLoop bs m durRun rest
              ((batch_iterate npPermutation g bs m).1.foldl trainStep mod)
              (batch_iterate npPermutation g bs m).2 tb' with
          | Except.error err => Except.error err
          | Except.ok (modF, gF, tbF, tr) =>
              Except.ok (modF, gF, tbF, (batch_iterate npPermutation g bs m).1 :: tr)

/-- Embeds the outer `for _, batch_size in benchmark_train` loop of
`main` (lines 67-87): per yielded run, a freshly-initialized model
(`freshModel` stands for `MLP(...)` with its weight initialization),
`num_epochs` epochs of training with per-epoch `add_epoch`, then the
next run.  Returns the final benchmark, generator state, the per-run
trained models and the per-run batch-id traces. -/
def mainTrainLoop (m E : Nat) (dur : Nat → Nat → Rat) (tb : TrainBenchmark)
    (g : RngState) :
    Except InvalidStateError
      (TrainBenchmark × RngState × List Model × List (List (List (List Nat)))) :=
  match h : tb.next with
  | (none, tb') => Except.ok (tb', g, [], [])
  | (some ib, tb') =>
      match h2 : epochsLoop npPermutation trainStep ib.2 m (dur ib.1) (List.range E)
          (freshModel ib.1) g tb' with
      | Except.error err => Except.error err
      | Except.ok (modF, gF, tbF, tr) =>
          match mainTrainLoop m E dur tbF gF with
          | Except.error err => Except.error err
          | Except.ok (tbf, gf, mods, trs) =>
              Except.ok (tbf, gf, modF :: mods, tr :: trs)
termination_by tb.remaining
decreasing_by
  have hlt : tb'.remaining < tb.remaining := by
    unfold TrainBenchmark.next at h
    cases hst : tb.state with
    | done => simp [hst] at h
    | notStarted =>
        rw [hst] at h
        by_cases hn : 0 < tb.num_runs
        · simp only [if_pos hn] at h
          cases h
          simp [TrainBenchmark.remaining, hst]
        · simp [if_neg hn] at h
    | inRun i =>
        rw [hst] at h
        by_cases hn : i + 1 < tb.num_runs
        · simp only [if_pos hn] at h
          cases h
          simp only [TrainBenchmark.remaining, hst]
          omega
        · simp [if_neg hn] at h
  have key : ∀ (es : List Nat) (md : Model) (g0 : RngState) (t : TrainBenchmark)
      (m2 : Model) (g2 : RngState) (t2 : TrainBenchmark) (tr2 : List (List (List Nat))),
      epochsLoop npPermutation trainStep ib.2 m (dur ib.1) es md g0 t =
        Except.ok (m2, g2, t2, tr2) → t2.remaining = t.remaining := by
    intro es
    induction es with
    | nil =>
        intro md g0 t m2 g2 t2 tr2 hq
        unfold epochsLoop at hq
        cases hq
        rfl
    | cons e rest ih =>
        intro md g0 t m2 g2 t2 tr2 hq
        unfold epochsLoop at hq
        split at hq
        · cases hq
        · rename_i t1 hadd
          split at hq
          · cases hq
          · rename_i mq gq tq trq hrec
            cases hq
            have h1 : t2.remaining = t1.remaining := ih _ _ _ _ _ _ _ hrec
            have hq2 : t1.remaining = t.remaining := by
              unfold TrainBenchmark.add_epoch at hadd
              cases hst : t.state with
              | inRun j =>
                  rw [hst] at hadd
                  cases hadd
                  simp [TrainBenchmark.remaining, hst]
              | notStarted => rw [hst] at hadd; cases hadd
              | done => rw [hst] at hadd; cases hadd
            omega

  have := key _ _ _ _ _ _ _ _ h2
  omega

/-- Embeds the python `NameError` raised when the inference loop body
reads the `model` variable and no training run ever assigned it. -/
inductive NameError where
  | modelNotDefined : NameError
deriving DecidableEq, Repr

/-- Embeds the body of the `for i in benchmark_test` loop over an
explicit list of iteration indices: each iteration evaluates
`eval_fn(model, ...)` on the `model` variable; reading an unassigned
variable is a `NameError`. -/
def testPhaseAux (modelVar : Option Model) : List Nat → Except NameError (List Acc)
  | [] => Except.ok []
  | _i :: rest =>
      match modelVar with
      | none => Except.error NameError.modelNotDefined
      | some mod =>
          match testPhaseAux modelVar rest with
          | Except.error e => Except.error e
          | Except.ok accs => Except.ok (evalModel mod :: accs)

/-- Embeds the `for i in benchmark_test` loop of `main` (lines 91-93):
each iteration evaluates `eval_fn(model, ...)` on the `model` variable
left over from the training loop. -/
def testPhase (t : TestBenchmark) (modelVar : Option Model) :
    Except NameError (List Acc) :=
  testPhaseAux evalModel modelVar t.iterate

/-- The failures `main` can surface: harness API misuse, or the
undefined `model` variable. -/
inductive MainError where
  | invalidState : InvalidStateError → MainError
  | nameNotDefined : MainError

/-- Embeds `main(num_iters, num_epochs, vary_batch_size)`
(lines 51-97): picks `init_batch_size` (16 when varying, else 256),
seeds the NumPy generator once with seed 0, runs the training loop,
then the inference loop on the leftover `model` variable
(`mods.getLast?`), and finally writes both CSV files.  The dataset is
abstracted by its size `m = train_labels.size`; measured epoch
durations enter through `dur`. -/
def main (num_iters num_epochs : Nat) (vary_batch_size : Bool) (m : Nat)
    (dur : Nat → Nat → Rat) (device : String) (fs : String → Option String) :
    Except MainError
      (TrainBenchmark × List Model × List (List (List (List Nat))) × List Acc ×
        (String → Option String)) :=
  match mainTrainLoop npPermutation freshModel trainStep m num_epochs dur
      (TrainBenchmark.init (if vary_batch_size then 16 else 256) vary_batch_size
        num_iters)
      (npSeed 0) with
  | Except.error e => Except.error (MainError.invalidState e)
  | Except.ok (tbf, _gf, mods, trs) =>
      match testPhase evalModel (TestBenchmark.init num_iters) mods.getLast? with
      | Except.error _ => Except.error MainError.nameNotDefined
      | Except.ok accs =>
          Except.ok (tbf, mods, trs, accs,
            (TestBenchmark.init num_iters).write_to_csv
              (tbf.write_to_csv fs
                (trainCsvPath device num_iters num_epochs vary_batch_size))
              (testCsvPath device num_iters num_epochs vary_batch_size))

/-- The model/generator/trace evolution of one run of `E` epochs,
as a pure function (reference for stating theorems about
`epochsLoop`). -/
def runSim (bs m : Nat) (mod : Model) (g : RngState) :
    Nat → Model × RngState × List (List (List Nat))
  | 0 => (mod, g, [])
  | Nat.succ E =>
      let bi := batch_iterate npPermutation g bs m
      let r := runSim bs m (bi.1.foldl trainStep mod) bi.2 E
      (r.1, r.2.1, bi.1 :: r.2.2)

/-- The generator/trace evolution of one run of `E` epochs, not
mentioning the model: the batch ids drawn do not depend on it. -/
def runTraceSim (bs m : Nat) (g : RngState) :
    Nat → RngState × List (List (List Nat))
  | 0 => (g, [])
  | Nat.succ E =>
      let bi := batch_iterate npPermutation g bs m
      let r := runTraceSim bs m bi.2 E
      (r.1, bi.1 :: r.2)

/-- The generator/trace evolution across a list of runs, not
mentioning the model. -/
def loopTraceSim (m E : Nat) (bsOf : Nat → Nat) (js : List Nat) (g : RngState) :
    List (List (List (List Nat))) × RngState :=
  match js with
  | [] => ([], g)
  | j :: rest =>
      let r := runTraceSim npPermutation (bsOf j) m g E
      let l := loopTraceSim m E bsOf rest r.1
      (r.2 :: l.1, l.2)

/-- The benchmark state `main` ends with: one run record per run index
`0 .. num_iters - 1`, batch size following the doubling policy from the
hard-coded initial size (16 when varying, 256 otherwise), and the
reported durations per epoch. -/
def mainFinalTB (n E : Nat) (v : Bool) (dur : Nat → Nat → Rat) : TrainBenchmark :=
  { initial_batch_size := if v then 16 else 256
    vary_batch_size := v
    num_runs := n
    runs := (List.range n).map
      (fun j => ⟨j, if v then 16 * 2 ^ j else 256, (List.range E).map (dur j)⟩)
    state := TBState.done }

/-- Projects the batch-id trace out of a `main` result (the sequence
of `(X, y)` batches fed to training is this trace applied to the fixed
dataset arrays). -/
def batchTraceOf
    (r : Except MainError
      (TrainBenchmark × List Model × List (List (List (List Nat))) × List Acc ×
        (String → Option String))) :
    Option (List (List (List (List Nat)))) :=
  match r with
  | Except.ok x => some x.2.2.1
  | Except.error _ => none

end MainEmbedding

/-! Helper lemmas about the iteration state machine. -/

theorem TrainBenchmark.next_none_shape {tb tb' : TrainBenchmark}
    (h : tb.next = (none, tb')) :
    tb' = { tb with state := TBState.done } ∧ tb.pendingIdx = [] := by
  unfold TrainBenchmark.next at h
  cases hst : tb.state with
  | done =>
      rw [hst] at h
      cases h
      obtain ⟨b, v, n, rs, st⟩ := tb
      simp only at hst
      subst hst
      exact ⟨rfl, rfl⟩
  | notStarted =>
      rw [hst] at h
      by_cases hn : 0 < tb.num_runs
      · simp [if_pos hn] at h
      · simp only [if_neg hn] at h
        cases h
        refine ⟨rfl, ?_⟩
        simp [TrainBenchmark.pendingIdx, hst, Nat.eq_zero_of_not_pos hn]
  | inRun i =>
      rw [hst] at h
      by_cases hn : i + 1 < tb.num_runs
      · simp [if_pos hn] at h
      · simp only [if_neg hn] at h
        cases h
        refine ⟨rfl, ?_⟩
        have : tb.num_runs - (i + 1) = 0 := by omega
        simp [TrainBenchmark.pendingIdx, hst, this]

theorem TrainBenchmark.next_some_shape {tb tb' : TrainBenchmark} {ib : Nat × Nat}
    (h : tb.next = (some ib, tb')) :
    ib.2 = tb.batchSizeFor ib.1
    ∧ tb' = { tb with runs := tb.runs ++ [⟨ib.1, tb.batchSizeFor ib.1, []⟩],
                      state := TBState.inRun ib.1 }
    ∧ tb.pendingIdx = ib.1 :: tb'.pendingIdx
    ∧ tb'.remaining < tb.remaining := by
  unfold TrainBenchmark.next at h
  cases hst : tb.state with
  | done => simp [hst] at h
  | notStarted =>
      rw [hst] at h
      by_cases hn : 0 < tb.num_runs
      · simp only [if_pos hn] at h
        cases h
        refine ⟨rfl, rfl, ?_, ?_⟩
        · simp only [TrainBenchmark.pendingIdx, hst]
          obtain ⟨k, hk⟩ : ∃ k, tb.num_runs = k + 1 := ⟨tb.num_runs - 1, by omega⟩
          rw [hk, List.range_eq_range', List.range'_succ]
          simp
        · simp [TrainBenchmark.remaining, hst]
      · simp [if_neg hn] at h
  | inRun i =>
      rw [hst] at h
      by_cases hn : i + 1 < tb.num_runs
      · simp only [if_pos hn] at h
        cases h
        refine ⟨rfl, rfl, ?_, ?_⟩
        · simp only [TrainBenchmark.pendingIdx, hst]
          have hsplit : tb.num_runs - (i + 1) = (tb.num_runs - (i + 2)) + 1 := by omega
          rw [hsplit, List.range'_succ]
        · simp only [TrainBenchmark.remaining, hst]
          omega
      · simp [if_neg hn] at h

theorem TrainBenchmark.iterate_next_none {tb tb' : TrainBenchmark}
    (h : tb.next = (none, tb')) : tb.iterate = ([], tb') := by
  rw [TrainBenchmark.iterate]
  split
  · rename_i tb'' h2
    rw [h] at h2
    cases h2
    rfl
  · rename_i p tb'' h2
    rw [h] at h2
    cases h2

theorem TrainBenchmark.iterate_next_some {tb tb' : TrainBenchmark} {p : Nat × Nat}
    (h : tb.next = (some p, tb')) :
    tb.iterate = (p :: (tb'.iterate).1, (tb'.iterate).2) := by
  rw [TrainBenchmark.iterate]
  split
  · rename_i tb'' h2
    rw [h] at h2
    cases h2
  · rename_i q tb'' h2
    rw [h] at h2
    cases h2
    rfl

theorem TrainBenchmark.iterate_fst (tb : TrainBenchmark) :
    (tb.iterate).1 = tb.pendingIdx.map (fun j => (j, tb.batchSizeFor j)) := by
  induction tb using TrainBenchmark.iterate.induct with
  | case1 tb tb' h =>
      rw [TrainBenchmark.iterate_next_none h, (TrainBenchmark.next_none_shape h).2]
      rfl
  | case2 tb p tb' h ih =>
      obtain ⟨hbs, hshape, hpend, _⟩ := TrainBenchmark.next_some_shape h
      rw [TrainBenchmark.iterate_next_some h, hpend]
      simp only [List.map_cons, ih]
      have hp : p = (p.1, tb.batchSizeFor p.1) := by
        rw [← hbs]
      rw [hp]
      subst hshape
      rfl

theorem TrainBenchmark.iterate_snd_state (tb : TrainBenchmark) :
    (tb.iterate).2.state = TBState.done := by
  induction tb using TrainBenchmark.iterate.induct with
  | case1 tb tb' h =>
      rw [TrainBenchmark.iterate_next_none h, (TrainBenchmark.next_none_shape h).1]
  | case2 tb p tb' h ih =>
      rw [TrainBenchmark.iterate_next_some h]
      exact ih

theorem modifyLast_append {α : Type} (f : α → α) (rs : List α) (a : α) :
    modifyLast f (rs ++ [a]) = rs ++ [f a] := by
  induction rs with
  | nil => rfl
  | cons x xs ih =>
      cases xs with
      | nil => rfl
      | cons y ys =>
          simp only [List.cons_append, List.append_eq, modifyLast] at ih ⊢
          rw [ih]

/-- `add_epoch` in an active run appends to the last (= active) run
record and preserves everything else. -/
theorem TrainBenchmark.add_epoch_inRun {tb : TrainBenchmark} {i : Nat}
    (hst : tb.state = TBState.inRun i) (rs : List Run) (r : Run) (d : Rat)
    (hruns : tb.runs = rs ++ [r]) :
    tb.add_epoch d =
      Except.ok { tb with runs :=
        rs ++ [{ r with epoch_durations := r.epoch_durations ++ [d] }] } := by
  unfold TrainBenchmark.add_epoch
  rw [hst]
  simp only [hruns, modifyLast_append]

/-- `addEpochs` in an active run appends the whole duration list to the
active run record, succeeds, and preserves the iteration state. -/
theorem TrainBenchmark.addEpochs_inRun (i : Nat) (rs : List Run) (l : List Rat) :
    ∀ (tb : TrainBenchmark) (r : Run), tb.state = TBState.inRun i →
    tb.runs = rs ++ [r] →
    tb.addEpochs l =
      Except.ok { tb with runs :=
        rs ++ [{ r with epoch_durations := r.epoch_durations ++ l }] } := by
  induction l with
  | nil =>
      intro tb r hst hruns
      unfold TrainBenchmark.addEpochs
      obtain ⟨ri, rb, rd⟩ := r
      obtain ⟨b, v, n, rs0, st⟩ := tb
      simp only at hruns
      subst hruns
      simp
  | cons d ds ih =>
      intro tb r hst hruns
      unfold TrainBenchmark.addEpochs
      rw [TrainBenchmark.add_epoch_inRun hst rs r d hruns]
      change ({ tb with runs :=
          rs ++ [{ r with epoch_durations := r.epoch_durations ++ [d] }] }).addEpochs ds = _
      rw [ih { tb with runs :=
          rs ++ [{ r with epoch_durations := r.epoch_durations ++ [d] }] }
        { r with epoch_durations := r.epoch_durations ++ [d] } hst rfl]
      simp

/-! Helper lemmas about the embedded training loop of `main`. -/

section MainLemmas

variable {Model Acc RngState : Type}
variable (npSeed : Nat → RngState)
variable (npPermutation : RngState → Nat → List Nat × RngState)
variable (freshModel : Nat → Model)
variable (trainStep : Model → List Nat → Model)
variable (evalModel : Model → Acc)

/-- Inside an active run, the epoch loop always succeeds; its model,
generator and trace components follow `runSim`, and the benchmark gets
the epoch durations appended to the active run record. -/
theorem epochsLoop_spec (bs m : Nat) (durRun : Nat → Rat) (es : List Nat) :
    ∀ (mod : Model) (g : RngState) (tb : TrainBenchmark) (i : Nat)
      (rs : List Run) (r : Run), tb.state = TBState.inRun i → tb.runs = rs ++ [r] →
      epochsLoop npPermutation trainStep bs m durRun es mod g tb =
        Except.ok ((runSim npPermutation trainStep bs m mod g es.length).1,
          (runSim npPermutation trainStep bs m mod g es.length).2.1,
          { tb with runs :=
            rs ++ [{ r with epoch_durations := r.epoch_durations ++ es.map durRun }] },
          (runSim npPermutation trainStep bs m mod g es.length).2.2) := by
  induction es with
  | nil =>
      intro mod g tb i rs r hst hruns
      simp only [epochsLoop, runSim, List.length_nil, List.map_nil]
      obtain ⟨ri, rb, rd⟩ := r
      obtain ⟨b, v, n, rs0, st⟩ := tb
      simp only at hruns
      subst hruns
      simp
  | cons e rest ih =>
      intro mod g tb i rs r hst hruns
      unfold epochsLoop
      rw [TrainBenchmark.add_epoch_inRun hst rs r (durRun e) hruns]
      change (match epochsLoop npPermutation trainStep bs m durRun rest
          ((batch_iterate npPermutation g bs m).1.foldl trainStep mod)
          (batch_iterate npPermutation g bs m).2
          ({ tb with runs :=
            rs ++ [{ r with epoch_durations := r.epoch_durations ++ [durRun e] }] }) with
        | Except.error err => Except.error err
        | Except.ok (modF, gF, tbF, tr) =>
            Except.ok (modF, gF, tbF, (batch_iterate npPermutation g bs m).1 :: tr)) = _
      rw [ih ((batch_iterate npPermutation g bs m).1.foldl trainStep mod)
        (batch_iterate npPermutation g bs m).2
        { tb with runs :=
            rs ++ [{ r with epoch_durations := r.epoch_durations ++ [durRun e] }] }
        i rs { r with epoch_durations := r.epoch_durations ++ [durRun e] } hst rfl]
      simp only [runSim, List.length_cons, List.map_cons]
      simp [List.append_assoc]

/-- The generator and trace components of `runSim` do not depend on
the model. -/
theorem runSim_snd (bs m : Nat) :
    ∀ (E : Nat) (mod : Model) (g : RngState),
      (runSim npPermutation trainStep bs m mod g E).2 =
        runTraceSim npPermutation bs m g E := by
  intro E
  induction E with
  | zero => intro mod g; rfl
  | succ E ih =>
      intro mod g
      simp only [runSim, runTraceSim]
      rw [ih]

theorem mainTrainLoop_next_none (m E : Nat) (dur : Nat → Nat → Rat)
    {tb tb' : TrainBenchmark} (g : RngState) (h : tb.next = (none, tb')) :
    mainTrainLoop npPermutation freshModel trainStep m E dur tb g =
      Except.ok (tb', g, [], []) := by
  rw [mainTrainLoop]
  split
  · rename_i tb'' h2
    rw [h] at h2
    cases h2
    rfl
  · rename_i ib tb'' h2
    rw [h] at h2
    cases h2

theorem mainTrainLoop_next_some (m E : Nat) (dur : Nat → Nat → Rat)
    {tb tb' tbF : TrainBenchmark} {ib : Nat × Nat} (g : RngState)
    {mF : Model} {gF : RngState} {tr : List (List (List Nat))}
    (h : tb.next = (some ib, tb'))
    (hE : epochsLoop npPermutation trainStep ib.2 m (dur ib.1) (List.range E)
      (freshModel ib.1) g tb' = Except.ok (mF, gF, tbF, tr)) :
    mainTrainLoop npPermutation freshModel trainStep m E dur tb g =
      match mainTrainLoop npPermutation freshModel trainStep m E dur tbF gF with
      | Except.error err => Except.error err
      | Except.ok (tbf, gf, mods, trs) => Except.ok (tbf, gf, mF :: mods, tr :: trs) := by
  rw [mainTrainLoop]
  split
  · rename_i tb'' h2
    rw [h] at h2
    cases h2
  · rename_i ib2 tb'' h2
    rw [h] at h2
    cases h2
    split
    · rename_i err h3
      rw [hE] at h3
      cases h3
    · rename_i mF2 gF2 tbF2 tr2 h3
      rw [hE] at h3
      cases h3
      rfl

/-- The statement of `mainTrainLoop_spec`, abbreviated: from any state,
the training loop succeeds; the final benchmark appends one run record
per pending index carrying the reported durations; generator state and
batch traces follow the model-free `loopTraceSim`; each returned model
results from training the freshly-initialized model of its run. -/
def mainTrainLoopConforms (m E : Nat) (dur : Nat → Nat → Rat)
    (tb : TrainBenchmark) (g : RngState) : Prop :=
  ∃ mods : List Model,
    mainTrainLoop npPermutation freshModel trainStep m E dur tb g =
      Except.ok
        ({ tb with
            runs := tb.runs ++ tb.pendingIdx.map
              (fun j => ⟨j, tb.batchSizeFor j, (List.range E).map (dur j)⟩),
            state := TBState.done },
          (loopTraceSim npPermutation m E tb.batchSizeFor tb.pendingIdx g).2,
          mods,
          (loopTraceSim npPermutation m E tb.batchSizeFor tb.pendingIdx g).1)
    ∧ List.Forall₂ (fun j mod => ∃ g0, mod =
        (runSim npPermutation trainStep (tb.batchSizeFor j) m (freshModel j) g0 E).1)
      tb.pendingIdx mods

theorem mainTrainLoop_spec_none (m E : Nat) (dur : Nat → Nat → Rat)
    {tb tb' : TrainBenchmark} (g : RngState) (h : tb.next = (none, tb')) :
    mainTrainLoopConforms npPermutation freshModel trainStep m E dur tb g := by
  obtain ⟨hsh, hpend⟩ := TrainBenchmark.next_none_shape h
  refine ⟨[], ?_, ?_⟩
  · rw [mainTrainLoop_next_none npPermutation freshModel trainStep m E dur g h, hsh,
      hpend]
    simp [loopTraceSim]
  · rw [hpend]
    exact List.Forall₂.nil

theorem mainTrainLoop_spec (m E : Nat) (dur : Nat → Nat → Rat) :
    ∀ (k : Nat) (tb : TrainBenchmark) (g : RngState), tb.remaining ≤ k →
      mainTrainLoopConforms npPermutation freshModel trainStep m E dur tb g := by
  intro k
  induction k with
  | zero =>
      intro tb g hk
      rcases hnext : tb.next with ⟨o, tb'⟩
      cases o with
      | some ib =>
          exfalso
          have := (TrainBenchmark.next_some_shape hnext).2.2.2
          omega
      | none => exact mainTrainLoop_spec_none npPermutation freshModel trainStep m E dur g hnext
  | succ k ih =>
      intro tb g hk
      rcases hnext : tb.next with ⟨o, tb'⟩
      cases o with
      | none => exact mainTrainLoop_spec_none npPermutation freshModel trainStep m E dur g hnext
      | some ib =>
          obtain ⟨i1, i2⟩ := ib
          obtain ⟨hbs, hshape, hpend, hlt⟩ := TrainBenchmark.next_some_shape hnext
          simp only at hbs hpend
          subst hbs
          subst hshape
          have hep := epochsLoop_spec npPermutation trainStep (tb.batchSizeFor i1) m
            (dur i1) (List.range E) (freshModel i1) g
            { tb with runs := tb.runs ++ [⟨i1, tb.batchSizeFor i1, []⟩],
                      state := TBState.inRun i1 }
            i1 tb.runs ⟨i1, tb.batchSizeFor i1, []⟩ rfl rfl
          have hfinal := mainTrainLoop_next_some npPermutation freshModel trainStep m E
            dur g hnext hep
          set tbE : TrainBenchmark :=
            { tb with
                runs := tb.runs ++
                  [⟨i1, tb.batchSizeFor i1, [] ++ (List.range E).map (dur i1)⟩],
                state := TBState.inRun i1 } with htbE
          have hkE : tbE.remaining ≤ k := by
            simp only [TrainBenchmark.remaining, htbE] at hlt hk ⊢
            omega
          obtain ⟨mods', hmain', hfa'⟩ :=
            ih tbE (runSim npPermutation trainStep (tb.batchSizeFor i1) m (freshModel i1)
              g (List.range E).length).2.1 hkE
          rw [hmain'] at hfinal
          refine ⟨(runSim npPermutation trainStep (tb.batchSizeFor i1) m (freshModel i1)
            g (List.range E).length).1 :: mods', ?_, ?_⟩
          · rw [hfinal]
            show Except.ok _ = Except.ok _
            refine congrArg Except.ok ?_
            have hbsf : tbE.batchSizeFor = tb.batchSizeFor := rfl
            have hpendE : tbE.pendingIdx =
                List.range' (i1 + 1) (tb.num_runs - (i1 + 1)) := rfl
            have hpend' : tb.pendingIdx = i1 :: tbE.pendingIdx := hpend
            simp only [Prod.mk.injEq]
            refine ⟨?_, ?_, trivial, ?_⟩
            · simp only [hbsf, hpend', List.map_cons, List.nil_append]
              simp [List.append_assoc, htbE]
            · simp only [hpend', loopTraceSim, hbsf]
              rw [runSim_snd npPermutation trainStep (tb.batchSizeFor i1) m
                (List.range E).length (freshModel i1) g, List.length_range]
            · simp only [hpend', loopTraceSim, hbsf]
              rw [runSim_snd npPermutation trainStep (tb.batchSizeFor i1) m
                (List.range E).length (freshModel i1) g, List.length_range]
          · have hpend' : tb.pendingIdx = i1 :: tbE.pendingIdx := hpend
            rw [hpend']
            refine List.Forall₂.cons ⟨g, ?_⟩ ?_
            · rw [List.length_range]
            · exact hfa'

theorem testPhaseAux_some (mod : Model) :
    ∀ l : List Nat, testPhaseAux evalModel (some mod) l =
      Except.ok (List.replicate l.length (evalModel mod)) := by
  intro l
  induction l with
  | nil => rfl
  | cons i rest ih =>
      unfold testPhaseAux
      rw [ih]
      rfl

theorem testPhase_some (t : TestBenchmark) (mod : Model) :
    testPhase evalModel t (some mod) =
      Except.ok (List.replicate t.num_iterations (evalModel mod)) := by
  unfold testPhase TestBenchmark.iterate
  rw [testPhaseAux_some evalModel mod, List.length_range]

/-- `main` always succeeds: the final benchmark is `mainFinalTB`, the
batch trace is the model-free `loopTraceSim` from the seeded generator,
each model was trained from a fresh initialization, and the inference
phase evaluates the last run's model once per iteration. -/
theorem main_spec (n E : Nat) (v : Bool) (m : Nat) (dur : Nat → Nat → Rat)
    (device : String) (fs : String → Option String) :
    ∃ (mods : List Model) (accs : List Acc),
      main npSeed npPermutation freshModel trainStep evalModel n E v m dur device fs =
        Except.ok
          (mainFinalTB n E v dur, mods,
            (loopTraceSim npPermutation m E (fun j => if v then 16 * 2 ^ j else 256)
              (List.range n) (npSeed 0)).1,
            accs,
            (TestBenchmark.init n).write_to_csv
              ((mainFinalTB n E v dur).write_to_csv fs (trainCsvPath device n E v))
              (testCsvPath device n E v))
      ∧ List.Forall₂ (fun j mod => ∃ g0, mod =
          (runSim npPermutation trainStep (if v then 16 * 2 ^ j else 256) m
            (freshModel j) g0 E).1) (List.range n) mods
      ∧ (0 < n → ∃ mL, mods.getLast? = some mL ∧
          accs = List.replicate n (evalModel mL))
      ∧ (n = 0 → accs = []) := by
  have hbsf : (TrainBenchmark.init (if v then 16 else 256) v n).batchSizeFor =
      fun j => if v then 16 * 2 ^ j else 256 := by
    funext j
    by_cases hv : v <;>
      simp [TrainBenchmark.init, TrainBenchmark.batchSizeFor, hv]
  have hpend0 : (TrainBenchmark.init (if v then 16 else 256) v n).pendingIdx =
      List.range n := rfl
  obtain ⟨mods, hml, hfa⟩ := mainTrainLoop_spec npPermutation freshModel trainStep m E
    dur (TrainBenchmark.init (if v then 16 else 256) v n).remaining
    (TrainBenchmark.init (if v then 16 else 256) v n) (npSeed 0) le_rfl
  simp only [hpend0, hbsf] at hml hfa
  have hlen : mods.length = n := by
    have := List.Forall₂.length_eq hfa
    simpa using this.symm
  have hTest : ∃ accs : List Acc,
      testPhase evalModel (TestBenchmark.init n) mods.getLast? = Except.ok accs
      ∧ (0 < n → ∃ mL, mods.getLast? = some mL ∧
          accs = List.replicate n (evalModel mL))
      ∧ (n = 0 → accs = []) := by
    rcases Nat.eq_zero_or_pos n with hn | hn
    · have hm : mods = [] := List.length_eq_zero.mp (by omega)
      refine ⟨[], ?_, ?_, fun _ => rfl⟩
      · rw [hm]
        subst hn
        rfl
      · intro hpos
        omega
    · have hm : mods ≠ [] := by
        intro hcon
        rw [hcon] at hlen
        simp at hlen
        omega
      obtain ⟨mL, hmL⟩ : ∃ mL, mods.getLast? = some mL := by
        cases hgl : mods.getLast? with
        | none => exact absurd (List.getLast?_eq_none_iff.mp hgl) hm
        | some x => exact ⟨x, rfl⟩
      refine ⟨List.replicate n (evalModel mL), ?_, ?_, ?_⟩
      · rw [hmL, testPhase_some evalModel (TestBenchmark.init n) mL]
        rfl
      · intro _
        exact ⟨mL, hmL, rfl⟩
      · intro hzero
        omega
  obtain ⟨accs, hTestEq, hPos, hZero⟩ := hTest
  have htbA : ({ TrainBenchmark.init (if v then 16 else 256) v n with
      runs := (TrainBenchmark.init (if v then 16 else 256) v n).runs ++
        (List.range n).map
          (fun j => ⟨j, if v then 16 * 2 ^ j else 256, (List.range E).map (dur j)⟩),
      state := TBState.done } : TrainBenchmark) = mainFinalTB n E v dur := by
    simp [TrainBenchmark.init, mainFinalTB]
  have step1 : main npSeed npPermutation freshModel trainStep evalModel n E v m dur
      device fs =
      match testPhase evalModel (TestBenchmark.init n) mods.getLast? with
      | Except.error _ => Except.error MainError.nameNotDefined
      | Except.ok accs2 =>
          Except.ok
            ({ TrainBenchmark.init (if v then 16 else 256) v n with
                runs := (TrainBenchmark.init (if v then 16 else 256) v n).runs ++
                  (List.range n).map
                    (fun j => ⟨j, if v then 16 * 2 ^ j else 256,
                      (List.range E).map (dur j)⟩),
                state := TBState.done },
              mods,
              (loopTraceSim npPermutation m E
                (fun j => if v then 16 * 2 ^ j else 256) (List.range n)
                (npSeed 0)).1,
              accs2,
              (TestBenchmark.init n).write_to_csv
                (TrainBenchmark.write_to_csv
                  { TrainBenchmark.init (if v then 16 else 256) v n with
                      runs := (TrainBenchmark.init (if v then 16 else 256) v n).runs ++
                        (List.range n).map
                          (fun j => ⟨j, if v then 16 * 2 ^ j else 256,
                            (List.range E).map (dur j)⟩),
                      state := TBState.done }
                  fs (trainCsvPath device n E v))
                (testCsvPath device n E v)) := by
    unfold main
    rw [hml]
  rw [hTestEq] at step1
  rw [htbA] at step1
  exact ⟨mods, accs, step1, hfa, hPos, hZero⟩

end MainLemmas

/-! Helper lemmas for `batch_iterate`'s slicing. -/

theorem pyRangeAux_nil {stop step s : Nat} (h : ¬(s < stop ∧ 0 < step)) :
    pyRangeAux stop step s = [] := by
  rw [pyRangeAux]
  simp [h]

theorem pyRangeAux_cons {stop step s : Nat} (h : s < stop ∧ 0 < step) :
    pyRangeAux stop step s = s :: pyRangeAux stop step (s + step) := by
  rw [pyRangeAux]
  simp [h]

theorem pyRangeAux_length {stop step : Nat} (hstep : 0 < step) :
    ∀ (f s : Nat), stop - s ≤ f →
      (pyRangeAux stop step s).length = (stop - s + step - 1) / step := by
  intro f
  induction f with
  | zero =>
      intro s hf
      have hc : ¬(s < stop ∧ 0 < step) := by omega
      rw [pyRangeAux_nil hc]
      have h0 : stop - s = 0 := by omega
      rw [h0]
      have : (0 + step - 1) / step = 0 := Nat.div_eq_of_lt (by omega)
      rw [this]
      rfl
  | succ f ih =>
      intro s hf
      by_cases h : s < stop ∧ 0 < step
      · rw [pyRangeAux_cons h]
        simp only [List.length_cons]
        rw [ih (s + step) (by omega)]
        rcases le_or_lt (stop - s) step with hts | hts
        · have h1 : stop - (s + step) = 0 := by omega
          rw [h1]
          have h2 : (0 + step - 1) / step = 0 := Nat.div_eq_of_lt (by omega)
          rw [h2]
          have h3 : stop - s + step - 1 = (stop - s - 1) + step := by omega
          rw [h3, Nat.add_div_right _ hstep]
          have h4 : (stop - s - 1) / step = 0 := Nat.div_eq_of_lt (by omega)
          rw [h4]
        · have h1 : stop - (s + step) + step - 1 = stop - s - 1 := by omega
          have h3 : stop - s + step - 1 = (stop - s - 1) + step := by omega
          rw [h1, h3, Nat.add_div_right _ hstep]
      · rw [pyRangeAux_nil h]
        have h0 : stop - s = 0 := by omega
        rw [h0]
        have : (0 + step - 1) / step = 0 := Nat.div_eq_of_lt (by omega)
        rw [this]
        rfl

theorem pyRangeAux_flatten {m bs : Nat} (perm : List Nat)
    (hlen : perm.length = m) (hbs : 0 < bs) :
    ∀ (f s : Nat), m - s ≤ f →
      ((pyRangeAux m bs s).map (fun t => (perm.drop t).take bs)).flatten =
        perm.drop s := by
  intro f
  induction f with
  | zero =>
      intro s hf
      have hc : ¬(s < m ∧ 0 < bs) := by omega
      rw [pyRangeAux_nil hc]
      rw [List.drop_eq_nil_of_le (by omega)]
      simp
  | succ f ih =>
      intro s hf
      by_cases h : s < m
      · rw [pyRangeAux_cons ⟨h, hbs⟩]
        simp only [List.map_cons, List.flatten_cons]
        rw [ih (s + bs) (by omega)]
        have hdd : perm.drop (s + bs) = (perm.drop s).drop bs := by
          rw [List.drop_drop]
        rw [hdd, List.take_append_drop]
      · have hc : ¬(s < m ∧ 0 < bs) := by omega
        rw [pyRangeAux_nil hc]
        rw [List.drop_eq_nil_of_le (by omega)]
        simp

theorem pyRangeAux_chunk_sizes {m bs : Nat} (perm : List Nat)
    (hlen : perm.length = m) (hbs : 0 < bs) :
    ∀ (f s : Nat), m - s ≤ f →
      ∀ l ∈ ((pyRangeAux m bs s).map (fun t => (perm.drop t).take bs)).dropLast,
        l.length = bs := by
  intro f
  induction f with
  | zero =>
      intro s hf l hl
      have hc : ¬(s < m ∧ 0 < bs) := by omega
      rw [pyRangeAux_nil hc] at hl
      simp at hl
  | succ f ih =>
      intro s hf l hl
      by_cases h : s < m
      · rw [pyRangeAux_cons ⟨h, hbs⟩] at hl
        by_cases h2 : s + bs < m
        · rw [pyRangeAux_cons ⟨h2, hbs⟩] at hl
          simp only [List.map_cons] at hl
          rw [List.dropLast_cons_of_ne_nil (by simp)] at hl
          rcases List.mem_cons.mp hl with hhead | htail
          · subst hhead
            rw [List.length_take, List.length_drop, hlen]
            omega
          · have := ih (s + bs) (by omega) l
            rw [pyRangeAux_cons ⟨h2, hbs⟩] at this
            simp only [List.map_cons] at this
            exact this htail
        · have hc : ¬(s + bs < m ∧ 0 < bs) := by omega
          rw [pyRangeAux_nil hc] at hl
          simp at hl
      · have hc : ¬(s < m ∧ 0 < bs) := by omega
        rw [pyRangeAux_nil hc] at hl
        simp at hl

/-! Helper lemmas about `embeds`. -/

theorem embeds_mem {p s : String} {c : Char} (h : embeds p s) (hc : c ∈ p.data) :
    c ∈ s.data := by
  obtain ⟨t, u, hs⟩ := h
  rw [hs]
  simp [hc]

theorem embeds_self (p : String) : embeds p p :=
  ⟨[], [], by simp⟩

theorem embeds_appendL {p s : String} (x : String) (h : embeds p s) :
    embeds p (x ++ s) := by
  obtain ⟨t, u, hs⟩ := h
  exact ⟨x.data ++ t, u, by rw [String.data_append, hs]; simp [List.append_assoc]⟩

theorem embeds_appendR {p s : String} (x : String) (h : embeds p s) :
    embeds p (s ++ x) := by
  obtain ⟨t, u, hs⟩ := h
  exact ⟨t, u ++ x.data, by rw [String.data_append, hs]; simp [List.append_assoc]⟩

/-! The claims. -/

/-- C1: for every `num_runs = n > 0`, iterating a `TrainBenchmark`
constructed with that `n` yields exactly `n` `(run_index, batch_size)`
pairs, with `run_index` taking the values `0` to `n-1` in strictly
increasing order, and the sequence is finite and non-restartable (the
exhausted instance yields nothing further). -/
theorem claim_C1 (b n : Nat) (v : Bool) (hn : 0 < n) :
    ((TrainBenchmark.init b v n).iterate.1.length = n)
    ∧ ((TrainBenchmark.init b v n).iterate.1.map Prod.fst = List.range n)
    ∧ List.Pairwise (· < ·) ((TrainBenchmark.init b v n).iterate.1.map Prod.fst)
    ∧ ((TrainBenchmark.init b v n).iterate.2.iterate =
        ([], (TrainBenchmark.init b v n).iterate.2)) := by
  have hf := TrainBenchmark.iterate_fst (TrainBenchmark.init b v n)
  have hpend : (TrainBenchmark.init b v n).pendingIdx = List.range n := rfl
  rw [hpend] at hf
  have hmap : (TrainBenchmark.init b v n).iterate.1.map Prod.fst = List.range n := by
    have hcomp : (Prod.fst ∘ fun j => (j, (TrainBenchmark.init b v n).batchSizeFor j)) =
        id := rfl
    rw [hf, List.map_map, hcomp, List.map_id]
  refine ⟨?_, hmap, ?_, ?_⟩
  · rw [hf]
    simp [List.length_map, List.length_range]
  · rw [hmap]
    exact List.pairwise_lt_range n
  · have hd := TrainBenchmark.iterate_snd_state (TrainBenchmark.init b v n)
    refine TrainBenchmark.iterate_next_none ?_
    unfold TrainBenchmark.next
    rw [hd]

/-- Witness for C1 at `b = 16`, `v = true`, `n = 3`. -/
theorem claim_C1_witness :
    0 < 3
    ∧ (((TrainBenchmark.init 16 true 3).iterate.1.length = 3)
      ∧ ((TrainBenchmark.init 16 true 3).iterate.1.map Prod.fst = List.range 3)
      ∧ List.Pairwise (· < ·) ((TrainBenchmark.init 16 true 3).iterate.1.map Prod.fst)
      ∧ ((TrainBenchmark.init 16 true 3).iterate.2.iterate =
          ([], (TrainBenchmark.init 16 true 3).iterate.2))) :=
  ⟨by decide, claim_C1 16 3 true (by decide)⟩

/-- C2: with `initial_batch_size = b > 0` and `num_runs = n > 0`, the
pair yielded at position `i` carries batch size `b * 2^i` when
`vary_batch_size` is set and `b` otherwise. -/
theorem claim_C2 (b n : Nat) (v : Bool) (hb : 0 < b) (hn : 0 < n) :
    ∀ i, i < n →
      ((TrainBenchmark.init b v n).iterate.1)[i]? =
        some (i, if v then b * 2 ^ i else b) := by
  intro i hi
  rw [TrainBenchmark.iterate_fst]
  have hpend : (TrainBenchmark.init b v n).pendingIdx = List.range n := rfl
  rw [hpend, List.getElem?_map, List.getElem?_range hi]
  rfl

/-- Witness for C2 at `b = 16`, `v = true`, `n = 3`, `i = 2`. -/
theorem claim_C2_witness :
    0 < 16 ∧ 0 < 3 ∧ 2 < 3
    ∧ ((TrainBenchmark.init 16 true 3).iterate.1)[2]? =
        some (2, if true then 16 * 2 ^ 2 else 16) :=
  ⟨by decide, by decide, by decide,
    claim_C2 16 3 true (by decide) (by decide) 2 (by decide)⟩

/-- C3: `add_epoch` fails with `InvalidStateError` exactly when no run
is active: on a freshly constructed harness (before the first iteration
step), on any exhausted harness (after full iteration), and in general
precisely outside the `inRun` states; in an active run it succeeds and
appends to that run's `epoch_durations` (the last run record). -/
theorem claim_C3 (tb : TrainBenchmark) (d : Rat) (b n : Nat) (v : Bool) :
    ((TrainBenchmark.init b v n).add_epoch d =
      Except.error InvalidStateError.noActiveRun)
    ∧ ((tb.iterate.2).add_epoch d = Except.error InvalidStateError.noActiveRun)
    ∧ (tb.add_epoch d = Except.error InvalidStateError.noActiveRun ↔
        (tb.state = TBState.notStarted ∨ tb.state = TBState.done))
    ∧ (∀ i rs r, tb.state = TBState.inRun i → tb.runs = rs ++ [r] →
        tb.add_epoch d = Except.ok { tb with runs :=
          rs ++ [{ r with epoch_durations := r.epoch_durations ++ [d] }] }) := by
  refine ⟨rfl, ?_, ?_, ?_⟩
  · have hd := TrainBenchmark.iterate_snd_state tb
    unfold TrainBenchmark.add_epoch
    rw [hd]
  · unfold TrainBenchmark.add_epoch
    cases hst : tb.state with
    | notStarted => simp
    | done => simp
    | inRun i => simp
  · intro i rs r hst hruns
    exact TrainBenchmark.add_epoch_inRun hst rs r d hruns

/-- Witness for C3: on a harness in run 0 the call succeeds and appends;
on a fresh harness it fails. -/
theorem claim_C3_witness :
    ((⟨16, true, 3, [⟨0, 16, []⟩], TBState.inRun 0⟩ : TrainBenchmark).add_epoch 1 =
      Except.ok (⟨16, true, 3, [⟨0, 16, [1]⟩], TBState.inRun 0⟩ : TrainBenchmark))
    ∧ (TrainBenchmark.init 16 true 3).add_epoch 1 =
        Except.error InvalidStateError.noActiveRun := by
  constructor
  · have := (claim_C3 ⟨16, true, 3, [⟨0, 16, []⟩], TBState.inRun 0⟩ 1 16 3 true).2.2.2
      0 [] ⟨0, 16, []⟩ rfl rfl
    simpa using this
  · exact (claim_C3 (TrainBenchmark.init 16 true 3) 1 16 3 true).1

/-- C4: calling `add_epoch` once per element of `l` (so `k = l.length`
times) while run `i` is active leaves that run's recorded duration
sequence equal to `l`: length exactly `k`, values the supplied ones in
call order. -/
theorem claim_C4 (tb : TrainBenchmark) (i : Nat) (rs : List Run) (r : Run)
    (l : List Rat) (hst : tb.state = TBState.inRun i) (hruns : tb.runs = rs ++ [r])
    (hfresh : r.epoch_durations = []) :
    ∃ tb', tb.addEpochs l = Except.ok tb'
      ∧ tb'.runs = rs ++ [{ r with epoch_durations := l }]
      ∧ tb'.state = tb.state
      ∧ ({ r with epoch_durations := l } : Run).epoch_durations.length = l.length := by
  refine ⟨_, TrainBenchmark.addEpochs_inRun i rs l tb r hst hruns, ?_, rfl, rfl⟩
  simp [hfresh]

/-- Witness for C4: two `add_epoch` calls during run 0 record exactly
those two durations in order. -/
theorem claim_C4_witness :
    ∃ tb', (⟨16, true, 3, [⟨0, 16, []⟩], TBState.inRun 0⟩ :
        TrainBenchmark).addEpochs [1, 3/2] = Except.ok tb'
      ∧ tb'.runs = [] ++ [{ (⟨0, 16, []⟩ : Run) with epoch_durations := [1, 3/2] }]
      ∧ tb'.state = (⟨16, true, 3, [⟨0, 16, []⟩], TBState.inRun 0⟩ :
          TrainBenchmark).state
      ∧ ({ (⟨0, 16, []⟩ : Run) with epoch_durations := [1, 3/2] } :
          Run).epoch_durations.length = ([1, 3/2] : List Rat).length :=
  claim_C4 ⟨16, true, 3, [⟨0, 16, []⟩], TBState.inRun 0⟩ 0 [] ⟨0, 16, []⟩ [1, 3/2]
    rfl rfl rfl

/-- C5: the `TrainBenchmark` export has one row per recorded epoch
summed over all runs plus one header row; the `TestBenchmark` export
has `num_iterations` data rows plus one header row; in both cases the
write replaces whatever the file system previously held at the target
path. -/
theorem claim_C5 (tb : TrainBenchmark) (k : Nat) (fs fs2 : String → Option String)
    (path path2 : String) :
    tb.csvRows.length = 1 + (tb.runs.map (fun r => r.epoch_durations.length)).sum
    ∧ (TestBenchmark.init k).csvRows.length = 1 + k
    ∧ tb.write_to_csv fs path path = some (renderCsv tb.csvRows)
    ∧ (TestBenchmark.init k).write_to_csv fs2 path2 path2 =
        some (renderCsv (TestBenchmark.init k).csvRows) := by
  refine ⟨?_, ?_, ?_, ?_⟩
  · simp only [TrainBenchmark.csvRows, List.length_cons, List.length_flatten,
      List.map_map]
    have : (List.length ∘ Run.csvRows) = fun r : Run => r.epoch_durations.length := by
      funext r
      simp [Run.csvRows]
    rw [this]
    omega
  · simp [TestBenchmark.csvRows, TestBenchmark.iterate, TestBenchmark.init]
    omega
  · simp [TrainBenchmark.write_to_csv]
  · simp [TestBenchmark.write_to_csv]

/-- Counterexample to C6 as stated: the test-results file name does not
embed the epoch count or the batch-size suffix.  At `device = "cpu"`,
`num_iters = 10`, `num_epochs = 7`, `vary_batch_size = true` the test
file name is identical to the one for `num_epochs = 99`,
`vary_batch_size = false`, and it contains neither the epoch count
`"7"` nor the `"-vbatch"` marker. -/
theorem claim_C6_counterexample :
    testCsvPath "cpu" 10 7 true = testCsvPath "cpu" 10 99 false
    ∧ ¬ embeds (toString 7) (testCsvPath "cpu" 10 7 true)
    ∧ ¬ embeds "-vbatch" (testCsvPath "cpu" 10 7 true) := by
  refine ⟨rfl, ?_, ?_⟩
  · intro h
    have hmem : '7' ∈ (testCsvPath "cpu" 10 7 true).data :=
      embeds_mem h (by decide)
    revert hmem
    decide
  · intro h
    have hmem : 'b' ∈ (testCsvPath "cpu" 10 7 true).data :=
      embeds_mem h (by decide)
    revert hmem
    decide

/-- C6 (amended): the training-results file name embeds the
backend/device identifier, the iteration count, the epoch count and the
`-vbatch` suffix exactly when batch size was varied (the suffix makes
the varied and non-varied names differ); the test-results file name
embeds only the device identifier and the iteration count — it is the
same string for every epoch count and batch-size flag. -/
theorem claim_C6 (device : String) (n e : Nat) (v : Bool) :
    embeds device (trainCsvPath device n e v)
    ∧ embeds (toString n) (trainCsvPath device n e v)
    ∧ embeds (toString e) (trainCsvPath device n e v)
    ∧ (v = true → embeds "-vbatch" (trainCsvPath device n e v))
    ∧ trainCsvPath device n e true ≠ trainCsvPath device n e false
    ∧ embeds device (testCsvPath device n e v)
    ∧ embeds (toString n) (testCsvPath device n e v)
    ∧ (∀ e' v', testCsvPath device n e v = testCsvPath device n e' v') := by
  refine ⟨?_, ?_, ?_, ?_, ?_, ?_, ?_, fun e' v' => rfl⟩
  · exact embeds_appendR _ (embeds_appendR _ (embeds_appendR _ (embeds_appendR _
      (embeds_appendR _ (embeds_appendR _
        (embeds_appendL _ (embeds_self device)))))))
  · exact embeds_appendR _ (embeds_appendR _ (embeds_appendR _ (embeds_appendR _
      (embeds_appendL _ (embeds_self (toString n))))))
  · exact embeds_appendR _ (embeds_appendR _
      (embeds_appendL _ (embeds_self (toString e))))
  · intro hv
    subst hv
    have hshape : trainCsvPath device n e true =
        ("results/mlx-train-" ++ device ++ "-n" ++ toString n ++ "-e" ++
          toString e ++ "-vbatch") ++ ".csv" := rfl
    rw [hshape]
    exact embeds_appendR _ (embeds_appendL _ (embeds_self "-vbatch"))
  · intro heq
    have hlen := congrArg String.length heq
    have htrue : trainCsvPath device n e true =
        ("results/mlx-train-" ++ device ++ "-n" ++ toString n ++ "-e" ++
          toString e ++ "-vbatch") ++ ".csv" := rfl
    have hfalse : trainCsvPath device n e false =
        ("results/mlx-train-" ++ device ++ "-n" ++ toString n ++ "-e" ++
          toString e ++ "") ++ ".csv" := rfl
    rw [htrue, hfalse] at hlen
    simp only [String.length_append] at hlen
    have h7 : "-vbatch".length = 7 := rfl
    have h0 : "".length = 0 := rfl
    rw [h7, h0] at hlen
    omega
  · exact embeds_appendR _ (embeds_appendR _ (embeds_appendR _
      (embeds_appendL _ (embeds_self device))))
  · exact embeds_appendR _ (embeds_appendL _ (embeds_self (toString n)))

/-- Witness for C6 (amended) at `device = "gpu"`, `n = 3`, `e = 5`,
`v = true`: the varied-batch marker is embedded and distinguishes the
two training file names. -/
theorem claim_C6_witness :
    embeds "-vbatch" (trainCsvPath "gpu" 3 5 true)
    ∧ trainCsvPath "gpu" 3 5 true ≠ trainCsvPath "gpu" 3 5 false :=
  ⟨(claim_C6 "gpu" 3 5 true).2.2.2.1 rfl,
    (claim_C6 "gpu" 3 5 true).2.2.2.2.1⟩

/-- C9: one pass of `batch_iterate` over labels of size `m > 0` with
`batch_size > 0` yields exactly `⌈m / batch_size⌉` batches (here
`(m + batch_size - 1) / batch_size`); the concatenation of the index
lists used across the yielded batches is a permutation of `0 .. m-1`;
and every batch except possibly the last holds exactly `batch_size`
indices. -/
theorem claim_C9 (bs m : Nat) (perm : List Nat) (hbs : 0 < bs) (hm : 0 < m)
    (hperm : perm.Perm (List.range m)) :
    (batchIds bs perm m).length = (m + bs - 1) / bs
    ∧ (batchIds bs perm m).flatten.Perm (List.range m)
    ∧ ∀ l ∈ (batchIds bs perm m).dropLast, l.length = bs := by
  have hlen : perm.length = m := by simpa using hperm.length_eq
  refine ⟨?_, ?_, ?_⟩
  · unfold batchIds pyRange
    rw [List.length_map, pyRangeAux_length hbs (m - 0) 0 le_rfl]
    simp
  · unfold batchIds pyRange
    rw [pyRangeAux_flatten perm hlen hbs (m - 0) 0 le_rfl]
    simpa using hperm
  · intro l hl
    unfold batchIds pyRange at hl
    exact pyRangeAux_chunk_sizes perm hlen hbs (m - 0) 0 le_rfl l hl

/-- Witness for C9 at `batch_size = 2`, `m = 5`,
`perm = [4, 0, 2, 1, 3]`. -/
theorem claim_C9_witness :
    0 < 2 ∧ 0 < 5 ∧ ([4, 0, 2, 1, 3] : List Nat).Perm (List.range 5)
    ∧ ((batchIds 2 [4, 0, 2, 1, 3] 5).length = (5 + 2 - 1) / 2
      ∧ (batchIds 2 [4, 0, 2, 1, 3] 5).flatten.Perm (List.range 5)
      ∧ ∀ l ∈ (batchIds 2 [4, 0, 2, 1, 3] 5).dropLast, l.length = 2) :=
  ⟨by decide, by decide, by decide,
    claim_C9 2 5 [4, 0, 2, 1, 3] (by decide) (by decide) (by decide)⟩

/-- C7: for every run of `main`, the driver trains a freshly-initialized
model (each returned model is `runSim` applied to `freshModel j`, never
to an earlier run's model) and reports `add_epoch` once per epoch, so
each run's recorded `epoch_durations` lists exactly the `num_epochs`
measured durations in order. -/
theorem claim_C7 {Model Acc RngState : Type}
    (npSeed : Nat → RngState) (npPermutation : RngState → Nat → List Nat × RngState)
    (freshModel : Nat → Model) (trainStep : Model → List Nat → Model)
    (evalModel : Model → Acc) (n E : Nat) (v : Bool) (m : Nat)
    (dur : Nat → Nat → Rat) (device : String) (fs : String → Option String)
    (hn : 0 < n) :
    ∃ (tbf : TrainBenchmark) (mods : List Model)
      (trs : List (List (List (List Nat)))) (accs : List Acc)
      (fsF : String → Option String),
      main npSeed npPermutation freshModel trainStep evalModel n E v m dur device fs =
        Except.ok (tbf, mods, trs, accs, fsF)
      ∧ tbf.runs.length = n
      ∧ (∀ r ∈ tbf.runs, r.epoch_durations = (List.range E).map (dur r.run_index))
      ∧ (∀ r ∈ tbf.runs, r.epoch_durations.length = E)
      ∧ mods.length = n
      ∧ List.Forall₂ (fun j mod => ∃ g0, mod =
          (runSim npPermutation trainStep (if v then 16 * 2 ^ j else 256) m
            (freshModel j) g0 E).1) (List.range n) mods := by
  obtain ⟨mods, accs, hmain, hfa, hPos, hZero⟩ :=
    main_spec npSeed npPermutation freshModel trainStep evalModel n E v m dur device fs
  refine ⟨mainFinalTB n E v dur, mods, _, accs, _, hmain, ?_, ?_, ?_, ?_, hfa⟩
  · simp [mainFinalTB]
  · intro r hr
    simp only [mainFinalTB, List.mem_map, List.mem_range] at hr
    obtain ⟨j, hj, rfl⟩ := hr
    rfl
  · intro r hr
    simp only [mainFinalTB, List.mem_map, List.mem_range] at hr
    obtain ⟨j, hj, rfl⟩ := hr
    simp
  · have hle := hfa.length_eq
    simpa using hle.symm

/-- Witness for C7 with `Model = Acc = RngState = Nat`, two runs of
three epochs. -/
theorem claim_C7_witness :
    0 < 2
    ∧ (∃ (tbf : TrainBenchmark) (mods : List Nat)
        (trs : List (List (List (List Nat)))) (accs : List Nat)
        (fsF : String → Option String),
        main (fun s => s) (fun g mm => (List.range mm, g + 1)) (fun j => j)
          (fun mod ids => mod + ids.sum) (fun mod => mod) 2 3 true 5
          (fun _ _ => 1) "cpu" (fun _ => none) =
          Except.ok (tbf, mods, trs, accs, fsF)
        ∧ tbf.runs.length = 2
        ∧ (∀ r ∈ tbf.runs, r.epoch_durations =
            (List.range 3).map ((fun _ _ => (1 : Rat)) r.run_index))
        ∧ (∀ r ∈ tbf.runs, r.epoch_durations.length = 3)
        ∧ mods.length = 2
        ∧ List.Forall₂ (fun j mod => ∃ g0, mod =
            (runSim (fun g mm => (List.range mm, g + 1))
              (fun mod ids => mod + ids.sum) (if true then 16 * 2 ^ j else 256) 5
              ((fun j => j) j) g0 3).1) (List.range 2) mods) :=
  ⟨by decide,
    claim_C7 (fun s => s) (fun g mm => (List.range mm, g + 1)) (fun j => j)
      (fun mod ids => mod + ids.sum) (fun mod => mod) 2 3 true 5 (fun _ _ => 1)
      "cpu" (fun _ => none) (by decide)⟩

/-- C8: the batch sequence fed to training is a deterministic function
of the arguments and the dataset: `main` seeds the generator once
(seed 0) and draws every batch permutation from it, so two executions
that agree on the arguments, the dataset size and the NumPy generator —
but may differ in everything model-sided (weight initialization,
gradient steps, evaluation) — produce identical batch-id traces, both
equal to the model-free `loopTraceSim` of the seeded generator. -/
theorem claim_C8 {M1 A1 M2 A2 RngState : Type}
    (npSeed : Nat → RngState) (npPermutation : RngState → Nat → List Nat × RngState)
    (freshA : Nat → M1) (stepA : M1 → List Nat → M1) (evalA : M1 → A1)
    (freshB : Nat → M2) (stepB : M2 → List Nat → M2) (evalB : M2 → A2)
    (n E : Nat) (v : Bool) (m : Nat) (dur : Nat → Nat → Rat) (device : String)
    (fs : String → Option String) :
    batchTraceOf (main npSeed npPermutation freshA stepA evalA n E v m dur device fs)
      = batchTraceOf (main npSeed npPermutation freshB stepB evalB n E v m dur device fs)
    ∧ batchTraceOf (main npSeed npPermutation freshA stepA evalA n E v m dur device fs)
      = some (loopTraceSim npPermutation m E (fun j => if v then 16 * 2 ^ j else 256)
          (List.range n) (npSeed 0)).1 := by
  obtain ⟨mods1, accs1, hmain1, _, _, _⟩ :=
    main_spec npSeed npPermutation freshA stepA evalA n E v m dur device fs
  obtain ⟨mods2, accs2, hmain2, _, _, _⟩ :=
    main_spec npSeed npPermutation freshB stepB evalB n E v m dur device fs
  rw [hmain1, hmain2]
  exact ⟨rfl, rfl⟩

/-- C10: the inference loop runs exactly as many iterations as there
were training runs (`TestBenchmark` is built with the same count), each
evaluating the model left over from the final training run; `main`
never hits an undefined `model` variable: for `num_iters > 0` the
variable holds the last run's model, and for `num_iters = 0` the loop
body never executes. -/
theorem claim_C10 {Model Acc RngState : Type}
    (npSeed : Nat → RngState) (npPermutation : RngState → Nat → List Nat × RngState)
    (freshModel : Nat → Model) (trainStep : Model → List Nat → Model)
    (evalModel : Model → Acc) (n E : Nat) (v : Bool) (m : Nat)
    (dur : Nat → Nat → Rat) (device : String) (fs : String → Option String) :
    ∃ (tbf : TrainBenchmark) (mods : List Model)
      (trs : List (List (List (List Nat)))) (accs : List Acc)
      (fsF : String → Option String),
      main npSeed npPermutation freshModel trainStep evalModel n E v m dur device fs =
        Except.ok (tbf, mods, trs, accs, fsF)
      ∧ tbf.runs.length = n
      ∧ (TestBenchmark.init n).iterate.length = n
      ∧ accs.length = n
      ∧ (0 < n → ∃ mL, mods.getLast? = some mL ∧
          accs = List.replicate n (evalModel mL))
      ∧ (n = 0 → accs = []) := by
  obtain ⟨mods, accs, hmain, hfa, hPos, hZero⟩ :=
    main_spec npSeed npPermutation freshModel trainStep evalModel n E v m dur device fs
  refine ⟨mainFinalTB n E v dur, mods, _, accs, _, hmain, ?_, ?_, ?_, hPos, hZero⟩
  · simp [mainFinalTB]
  · simp [TestBenchmark.iterate, TestBenchmark.init]
  · rcases Nat.eq_zero_or_pos n with h0 | hpos
    · rw [hZero h0, h0]
      rfl
    · obtain ⟨mL, _, hacc⟩ := hPos hpos
      rw [hacc]
      simp

/-- Witness for C10 with `Model = Acc = RngState = Nat` and two runs:
the positive-count implication is discharged at `n = 2`. -/
theorem claim_C10_witness :
    ∃ (tbf : TrainBenchmark) (mods : List Nat)
      (trs : List (List (List (List Nat)))) (accs : List Nat)
      (fsF : String → Option String),
      main (fun s => s) (fun g mm => (List.range mm, g + 1)) (fun j => j)
        (fun mod ids => mod + ids.sum) (fun mod => mod + 100) 2 3 false 5
        (fun _ _ => 1) "cpu" (fun _ => none) =
        Except.ok (tbf, mods, trs, accs, fsF)
      ∧ tbf.runs.length = 2
      ∧ (TestBenchmark.init 2).iterate.length = 2
      ∧ accs.length = 2
      ∧ (0 < 2 → ∃ mL, mods.getLast? = some mL ∧
          accs = List.replicate 2 ((fun mod => mod + 100) mL))
      ∧ (2 = 0 → accs = []) :=
  claim_C10 (fun s => s) (fun g mm => (List.range mm, g + 1)) (fun j => j)
    (fun mod ids => mod + ids.sum) (fun mod => mod + 100) 2 3 false 5
    (fun _ _ => 1) "cpu" (fun _ => none)

end MnistBench
